import Mathlib

/-!
Verification of the geotargets record-parsing pipeline.

This file gives a shallow embedding of the parsing core found in the
repository source (the tokenizer-based variant of the Google class:
parseLine, parseCanonical and the per-line body of getLocationEntities),
and proves or refutes the specification claims about it.

Modelling conventions:
- JavaScript strings are modelled as Lean String values, manipulated at
  the character-list level (String.data), so every string operation used
  by the source (substring, substr, indexOf, lastIndexOf, startsWith,
  toLowerCase, trim, split) has an explicit, executable model below.
- parseInt is modelled as jsParseInt returning Option Int, where none
  stands for the JavaScript NaN result.
- A thrown Error is modelled as the error branch of Except String,
  carrying the message string that the source builds.
- The zip extraction and network layers are outside the modelled core;
  getLocationEntities is modelled from the decompressed CSV text onward,
  exactly as the specification describes the batch driver.
-/

/-- Model of the JavaScript check "nextChar === undefined || nextChar === Comma"
applied to the remaining characters of the line. -/
def nextIsCommaOrEnd : List Char → Bool
  | [] => true
  | c :: _ => c == ','

/-- State-passing model of the character loop of Google.parseLine.
The first argument is the inQuotes flag, the second is the currentValue
accumulator, the third is the remaining input.  Each branch mirrors one
branch of the source loop; the empty-input case mirrors the final
"if (currentValue.length > 0) values.push(currentValue)". -/
def tokenizeAux : Bool → List Char → List Char → List String
  | _, cur, [] => if cur.length > 0 then [String.mk cur] else []
  | true, cur, c :: rest =>
      if c == '"' && nextIsCommaOrEnd rest then
        String.mk cur :: tokenizeAux false [] rest
      else
        tokenizeAux true (cur ++ [c]) rest
  | false, cur, c :: rest =>
      if c == ',' then tokenizeAux false cur rest
      else if c == ' ' then tokenizeAux false cur rest
      else if c == '"' then tokenizeAux true cur rest
      else tokenizeAux false (cur ++ [c]) rest

/-- Model of Google.parseLine: tokenize a raw CSV line into field values. -/
def parseLine (line : String) : List String :=
  tokenizeAux false [] line.data

/-- Index of the first occurrence of a character in a character list,
used to model the JavaScript indexOf and lastIndexOf methods. -/
def idxOfChar (c : Char) : List Char → Option Nat
  | [] => none
  | x :: rest => if x = c then some 0 else (idxOfChar c rest).map (· + 1)

/-- Model of the JavaScript String.indexOf for a single character:
the index of the first occurrence, or -1 when absent. -/
def jsIndexOf (s : String) (c : Char) : Int :=
  match idxOfChar c s.data with
  | some i => (i : Int)
  | none => -1

/-- Model of the JavaScript String.lastIndexOf for a single character:
the index of the last occurrence, or -1 when absent. -/
def jsLastIndexOf (s : String) (c : Char) : Int :=
  match idxOfChar c s.data.reverse with
  | some i => (s.data.length : Int) - 1 - i
  | none => -1

/-- Model of the JavaScript substring(0, n) and substr(0, n) for a
non-negative clamp n (negative arguments are clamped to 0 by Int.toNat
at the call sites). -/
def jsTakeStr (s : String) (n : Nat) : String := String.mk (s.data.take n)

/-- Model of the JavaScript substring(n) and substr(n) for a
non-negative n. -/
def jsDropStr (s : String) (n : Nat) : String := String.mk (s.data.drop n)

/-- Model of the JavaScript String.startsWith. -/
def jsStartsWith (s p : String) : Bool := p.data.isPrefixOf s.data

/-- Number of occurrences of a character in a string; models the source
expression (canonical.match(/,/g) || []).length. -/
def countChar (s : String) (c : Char) : Nat := s.data.count c

/-- The decomposed canonical hierarchy, modelling the LocationCanonical
type of the source: an optional region and a country. -/
structure LocationCanonical where
  region : Option String
  country : String
deriving DecidableEq

/-- Model of Google.parseCanonical.  The source mutates its name
parameter inside the second if-statement; the mutation is modelled by
the name? option, whose none case models the early return undefined. -/
def parseCanonical (name canonical : String) : Option LocationCanonical :=
  if name = canonical then
    some { region := none, country := name }
  else
    let name? : Option String :=
      if ¬ jsStartsWith canonical (name ++ ",") then
        if countChar canonical ',' = 2 then
          some (jsTakeStr canonical (jsIndexOf canonical ',').toNat)
        else
          none
      else
        some name
    match name? with
    | none => none
    | some nm =>
      let stateName := jsDropStr canonical (nm.length + 1)
      let comma := jsLastIndexOf stateName ','
      let region := jsTakeStr stateName comma.toNat
      let country := jsDropStr stateName (comma + 1).toNat
      some { region := some region, country := country }

/-- Model of the JavaScript parseInt in base 10: skip leading
whitespace, read an optional sign, then a maximal run of digits.
none models the NaN result produced when no digit is found. -/
def jsParseInt (s : String) : Option Int :=
  let cs := s.data.dropWhile (fun c => c == ' ' || c == '\t' || c == '\n' || c == '\r')
  let signAndDigits : Int × List Char :=
    match cs with
    | '-' :: rest => (-1, rest)
    | '+' :: rest => (1, rest)
    | _ => (1, cs)
  let ds := signAndDigits.2.takeWhile Char.isDigit
  if ds.isEmpty then none
  else some (signAndDigits.1 * (ds.foldl (fun a c => a * 10 + (c.toNat - '0'.toNat)) 0 : Nat))

/-- Model of the JavaScript String.toLowerCase for the ASCII codes used
by the dataset. -/
def jsToLower (s : String) : String := String.mk (s.data.map Char.toLower)

/-- The consideredTypes allow-list from the source. -/
def consideredTypes : List String :=
  ["City", "Country", "County", "Postal Code", "Region", "State"]

/-- The final output record, modelling the LocationEntity type of the
source.  The id field is Option Int because the source stores the raw
parseInt result, which is NaN (modelled none) for a non-numeric field. -/
structure LocationEntity where
  id : Option Int
  name : String
  canonical : String
  region : Option String
  country : String
  countryCode : String
  type : String
deriving DecidableEq

/-- Model of the per-line body of Google.getLocationEntities (the
arrow function passed to lines.map): tokenize the line, fail on a
field-count shortfall, silently skip rows whose type is not considered
or whose canonical does not decompose, and otherwise build the entity.
The error branch models the thrown Error with its exact message. -/
def assembleLine (line : String) (index : Nat) :
    Except String (Option LocationEntity) :=
  let values := parseLine line
  if values.length < 6 then
    .error ("Parsing failed on line #" ++ toString (index + 2) ++ " (not enough values)")
  else if consideredTypes.contains (values.getD 5 "") = false then
    .ok none
  else
    match parseCanonical (values.getD 1 "") (values.getD 2 "") with
    | none => .ok none
    | some canonical =>
      .ok (some {
        id := jsParseInt (values.getD 0 "")
        name := values.getD 1 ""
        canonical := values.getD 2 ""
        region := canonical.region
        country := canonical.country
        countryCode := jsToLower (values.getD 4 "")
        type := values.getD 5 "" })

/-- Whitespace characters removed by the JavaScript String.trim for the
ASCII inputs of this dataset. -/
def isWS (c : Char) : Bool := c == ' ' || c == '\t' || c == '\n' || c == '\r'

/-- Model of the JavaScript String.trim. -/
def jsTrim (s : String) : String :=
  String.mk (((s.data.dropWhile isWS).reverse.dropWhile isWS).reverse)

/-- Model of the JavaScript split on one or more consecutive line
terminators (the regex matching runs of optional carriage return plus
newline).  The boolean flag records whether the scanner is inside a run
of terminators, which collapses consecutive terminators into one split
point exactly as the regex does. -/
def splitLinesAux : List Char → List Char → Bool → List (List Char)
  | [], cur, _ => [cur.reverse]
  | '\r' :: '\n' :: rest, cur, inTerm =>
      if inTerm then splitLinesAux rest cur true
      else cur.reverse :: splitLinesAux rest [] true
  | '\n' :: rest, cur, inTerm =>
      if inTerm then splitLinesAux rest cur true
      else cur.reverse :: splitLinesAux rest [] true
  | c :: rest, cur, _ => splitLinesAux rest (c :: cur) false

/-- Split a string into lines as the source does. -/
def splitLines (s : String) : List String :=
  (splitLinesAux s.data [] false).map String.mk

/-- Model of the header-stripping step: content.substring(content.indexOf
of the newline plus one).trim(), exactly as in the source. -/
def preprocess (content : String) : String :=
  jsTrim (jsDropStr content ((jsIndexOf content '\n') + 1).toNat)

/-- Model of JavaScript Array.map whose callback may throw: the first
error aborts the whole traversal, otherwise the results are collected
in order. -/
def mapLines (f : Nat × String → Except String (Option LocationEntity)) :
    List (Nat × String) → Except String (List (Option LocationEntity))
  | [] => .ok []
  | p :: rest =>
    match f p with
    | .error e => .error e
    | .ok v =>
      match mapLines f rest with
      | .error e => .error e
      | .ok vs => .ok (v :: vs)

/-- Model of Google.getLocationEntities from the decompressed CSV text
onward: strip the header, split into lines, assemble every line in
order (with the line index), and filter out the undefined results. -/
def getLocationEntities (content : String) : Except String (List LocationEntity) :=
  let lines := splitLines (preprocess content)
  match mapLines (fun p => assembleLine p.2 p.1) lines.enum with
  | .error e => .error e
  | .ok entities => .ok (entities.filterMap id)

/-- The value a per-line assembly contributes to the final output: its
entity when it succeeded with one, nothing otherwise. -/
def exOk : Except String (Option LocationEntity) → Option LocationEntity
  | .ok o => o
  | .error _ => none

/-- True exactly when the per-line assembly did not raise. -/
def exIsOk : Except String (Option LocationEntity) → Bool
  | .ok _ => true
  | .error _ => false

/-- The id of the entity produced by a per-line assembly, when any. -/
def exEntityId : Except String (Option LocationEntity) → Option Int
  | .ok (some e) => e.id
  | _ => none

/-- Quote every field and join the quoted fields with commas; the line
construction of the round-trip property. -/
def quoteJoin : List String → String
  | [] => ""
  | [f] => "\"" ++ f ++ "\""
  | f :: fs => "\"" ++ f ++ "\"" ++ "," ++ quoteJoin fs

/-- A double-quote character immediately followed by a comma somewhere
in the list: the only pattern that makes the tokenizer recognise a
field boundary inside a quoted field. -/
def hasQuoteComma : List Char → Bool
  | [] => false
  | [_] => false
  | a :: b :: rest => (a == '"' && b == ',') || hasQuoteComma (b :: rest)

/-! ### Basic string and list lemmas for the embedding -/

theorem stringMk_data (s : String) : String.mk s.data = s := rfl

theorem string_data_append (s t : String) : (s ++ t).data = s.data ++ t.data := by
  cases s
  cases t
  rfl

theorem string_length_eq (s : String) : s.length = s.data.length := rfl

theorem idxOfChar_eq_none {c : Char} {l : List Char} (h : c ∉ l) :
    idxOfChar c l = none := by
  induction l with
  | nil => rfl
  | cons x rest ih =>
    simp only [idxOfChar]
    rw [if_neg, ih]
    · rfl
    · intro hm
      exact h (by simp [hm])
    · intro hx
      exact h (by simp [hx])

theorem idxOfChar_append_self {c : Char} {a : List Char} (r : List Char)
    (h : c ∉ a) : idxOfChar c (a ++ c :: r) = some a.length := by
  induction a with
  | nil => simp [idxOfChar]
  | cons x rest ih =>
    have hx : x ≠ c := by
      intro hx
      exact h (by simp [hx])
    have hrest : c ∉ rest := by
      intro hm
      exact h (by simp [hm])
    have hr : idxOfChar c (rest ++ c :: r) = some rest.length := ih hrest
    simp [idxOfChar, if_neg hx, hr]

theorem isPrefixOf_append_self (a r : List Char) : a.isPrefixOf (a ++ r) = true := by
  induction a with
  | nil => cases r <;> rfl
  | cons x rest ih => simp [List.isPrefixOf, ih]

theorem take_length_append (a r : List Char) : (a ++ r).take a.length = a := by
  simp

theorem drop_length_append (a r : List Char) : (a ++ r).drop a.length = r := by
  simp

/-! ### Claim C1: commas outside quoted mode -/

/-- Claim C1, counterexample.  On the line a,b the comma outside quoted
mode does NOT terminate the current field: the characters before and
after the comma coalesce into the single output field ab, instead of
becoming the two distinct entries a and b demanded by the claim.  The
half of the claim that does hold is that the comma itself is never
stored. -/
theorem parseLine_comma_does_not_separate :
    parseLine "a,b" = ["ab"] ∧ parseLine "a,b" ≠ ["a", "b"] := by
  constructor
  · rfl
  · decide

/-- Claim C1, amended.  A comma encountered outside quoted mode is
discarded entirely: tokenization continues on the rest of the line with
the accumulated value, the emitted fields and the quote mode all
unchanged.  In particular the comma character is never stored in any
field, but it does not terminate the current field either: field
termination is performed by closing quotes (or end of line), not by
commas. -/
theorem tokenizeAux_comma_outside_skipped (cur : List Char) (rest : List Char) :
    tokenizeAux false cur (',' :: rest) = tokenizeAux false cur rest := by
  simp [tokenizeAux]

/-! ### Claim C6: an entity whose canonical equals its name is a country -/

/-- Claim C6: for every name, decompose(name, name) returns the country
name with no region. -/
theorem parseCanonical_self (name : String) :
    parseCanonical name name = some { region := none, country := name } := by
  simp [parseCanonical]

/-! ### Claim C2: prefix-stripping path with a comma-free remainder -/

/-- Claim C2, counterexample.  With name X and canonical X,Y the
prefix-stripping path is taken and the remainder Y contains no comma,
yet the result carries region equal to the present-but-empty string
(substr with negative length), not an absent region as the claim
demands; the country is the full remainder. -/
theorem parseCanonical_no_comma_remainder_cex :
    parseCanonical "X" "X,Y" = some { region := some "", country := "Y" } ∧
      parseCanonical "X" "X,Y" ≠ some { region := none, country := "Y" } := by
  constructor
  · rfl
  · decide

/-- Claim C2, amended.  When decompose takes the direct prefix-stripping
path and the remainder after the name-plus-comma contains no comma, the
result has region equal to the empty string (present, produced by
substr(0, -1)) and country equal to the entire remainder. -/
theorem parseCanonical_no_comma_remainder (name canonical : String)
    (hne : name ≠ canonical)
    (hsw : jsStartsWith canonical (name ++ ",") = true)
    (hnc : ',' ∉ (jsDropStr canonical (name.length + 1)).data) :
    parseCanonical name canonical =
      some { region := some "", country := jsDropStr canonical (name.length + 1) } := by
  have hidx : idxOfChar ',' (jsDropStr canonical (name.length + 1)).data.reverse = none := by
    apply idxOfChar_eq_none
    simpa using hnc
  unfold parseCanonical
  rw [if_neg hne]
  rw [if_neg (show ¬ (¬ jsStartsWith canonical (name ++ ",") = true) by simp [hsw])]
  simp only [jsLastIndexOf, hidx]
  rfl

/-- Claim C2, witness for the amended theorem at name X and canonical
X,Y. -/
theorem parseCanonical_no_comma_remainder_witness :
    parseCanonical "X" "X,Y" =
      some { region := some "", country := jsDropStr "X,Y" ("X".length + 1) } :=
  parseCanonical_no_comma_remainder "X" "X,Y" (by decide) (by decide) (by decide)

/-! ### Claim C5: rows with unconsidered types are silently dropped -/

/-- Claim C5: a row with at least six tokenized fields whose sixth field
is not in the considered-type list is silently skipped: the assembly
returns no entity and raises no error, regardless of the other fields.
Combined with the batch shape (claim C9) no entity for such a row can
appear in the output of getLocationEntities. -/
theorem assembleLine_unconsidered_type_skipped (line : String) (index : Nat)
    (hlen : ¬ (parseLine line).length < 6)
    (htype : consideredTypes.contains ((parseLine line).getD 5 "") = false) :
    assembleLine line index = .ok none := by
  have hmem : (parseLine line)[5]?.getD "" ∉ consideredTypes := by
    simpa using htype
  simp [assembleLine, if_neg hlen, htype, hmem]

/-- Claim C5, witness: a Territory row with seven valid fields is
skipped without an error. -/
theorem assembleLine_unconsidered_type_skipped_witness :
    assembleLine "\"123\",\"Guam\",\"Guam\",\"\",\"GU\",\"Territory\",\"Active\"" 0 = .ok none :=
  assembleLine_unconsidered_type_skipped _ 0 (by decide) (by decide)

/-! ### Claim C3: rows with a non-numeric id -/

/-- Claim C3, counterexample.  A row with seven well-formed fields whose
id field abc is not a valid integer does NOT raise: the assembly
succeeds and produces an entity whose id is the NaN result of parseInt
(modelled none).  The claim demands a fatal error for such a row. -/
theorem assembleLine_bad_id_cex :
    assembleLine "\"abc\",\"France\",\"France\",\"\",\"FR\",\"Country\",\"Active\"" 0 =
      .ok (some {
        id := none
        name := "France"
        canonical := "France"
        region := none
        country := "France"
        countryCode := "fr"
        type := "Country" }) ∧
    exIsOk (assembleLine "\"abc\",\"France\",\"France\",\"\",\"FR\",\"Country\",\"Active\"" 0) = true := by
  constructor
  · rfl
  · rfl

/-- Claim C3, amended.  In the tokenizer-based variant, a row with at
least six tokenized fields never aborts the batch because of its id
field: the assembly succeeds, and if the row is retained the entity is
produced with a NaN id (modelled none).  Only a field-count shortfall
raises the fatal error.  (The regex-based source variant did reject a
non-numeric id, because its pattern requires digits; the tokenizer
variant parses the id with parseInt and performs no check.) -/
theorem assembleLine_bad_id_no_error (line : String) (index : Nat)
    (hlen : ¬ (parseLine line).length < 6)
    (hid : jsParseInt ((parseLine line).getD 0 "") = none) :
    exIsOk (assembleLine line index) = true ∧
      exEntityId (assembleLine line index) = none := by
  unfold assembleLine
  rw [if_neg hlen]
  by_cases ht : consideredTypes.contains ((parseLine line).getD 5 "") = false
  · rw [if_pos ht]
    exact ⟨rfl, rfl⟩
  · rw [if_neg ht]
    cases hpc : parseCanonical ((parseLine line).getD 1 "") ((parseLine line).getD 2 "") with
    | none => exact ⟨rfl, rfl⟩
    | some c => exact ⟨rfl, by simpa [exEntityId] using hid⟩

/-- Claim C3, witness for the amended theorem at the France row with id
field abc. -/
theorem assembleLine_bad_id_no_error_witness :
    exIsOk (assembleLine "\"abc\",\"France\",\"France\",\"\",\"FR\",\"Country\",\"Active\"" 0) = true ∧
      exEntityId (assembleLine "\"abc\",\"France\",\"France\",\"\",\"FR\",\"Country\",\"Active\"" 0) = none :=
  assembleLine_bad_id_no_error _ 0 (by decide) (by decide)

/-! ### Decomposition of a canonical whose tail has exactly one comma -/

/-- If the remaining hierarchy string is b,c with b and c comma-free,
the source computes region b (text before the last comma) and country c
(text after the last comma). -/
theorem lastComma_decomp (b c s : String) (hc : ',' ∉ c.data)
    (hs : s.data = b.data ++ ',' :: c.data) :
    jsTakeStr s (jsLastIndexOf s ',').toNat = b ∧
      jsDropStr s ((jsLastIndexOf s ',') + 1).toNat = c := by
  have hrev : s.data.reverse = c.data.reverse ++ ',' :: b.data.reverse := by
    rw [hs]
    simp
  have hcrev : ',' ∉ c.data.reverse := by simpa using hc
  have hidx : idxOfChar ',' s.data.reverse = some c.data.reverse.length := by
    rw [hrev]
    exact idxOfChar_append_self _ hcrev
  have hlen : s.data.length = b.data.length + 1 + c.data.length := by
    rw [hs]
    simp
    omega
  have hlast : jsLastIndexOf s ',' = (b.data.length : Int) := by
    simp only [jsLastIndexOf, hidx, List.length_reverse]
    rw [hlen]
    push_cast
    ring
  constructor
  · rw [hlast, Int.toNat_natCast]
    show String.mk (s.data.take b.data.length) = b
    rw [hs]
    rw [show (b.data ++ ',' :: c.data).take b.data.length = b.data from by simp]
  · rw [hlast, show ((b.data.length : Int) + 1).toNat = b.data.length + 1 by omega]
    show String.mk (s.data.drop (b.data.length + 1)) = c
    rw [hs, List.append_cons]
    rw [show b.data.length + 1 = (b.data ++ [',']).length from by simp]
    rw [drop_length_append]

/-- Decomposition along the direct name-comma path: for any three
segments whose last two are comma-free, decompose of the canonical
name,b,c returns region b and country c. -/
theorem parseCanonical_three_segments (name b c : String)
    (hb : ',' ∉ b.data) (hc : ',' ∉ c.data) :
    parseCanonical name (name ++ "," ++ b ++ "," ++ c) =
      some { region := some b, country := c } := by
  set canonical := name ++ "," ++ b ++ "," ++ c with hcanon
  have hdata : canonical.data = name.data ++ ',' :: (b.data ++ ',' :: c.data) := by
    simp [hcanon, string_data_append]
  have hne : name ≠ canonical := by
    intro h
    have hl : name.data.length = canonical.data.length := by rw [h]
    rw [hdata] at hl
    simp at hl
  have hsw : jsStartsWith canonical (name ++ ",") = true := by
    unfold jsStartsWith
    rw [string_data_append, hdata]
    rw [show name.data ++ ',' :: (b.data ++ ',' :: c.data) =
      (name.data ++ (",".data)) ++ (b.data ++ ',' :: c.data) from by simp]
    exact isPrefixOf_append_self _ _
  have hstate : (jsDropStr canonical (name.length + 1)).data = b.data ++ ',' :: c.data := by
    show canonical.data.drop (name.length + 1) = _
    rw [hdata, string_length_eq]
    rw [show name.data ++ ',' :: (b.data ++ ',' :: c.data) =
      (name.data ++ [',']) ++ (b.data ++ ',' :: c.data) from by simp]
    rw [show name.data.length + 1 = (name.data ++ [',']).length from by simp]
    exact drop_length_append _ _
  obtain ⟨h1, h2⟩ := lastComma_decomp b c _ hc hstate
  unfold parseCanonical
  rw [if_neg hne]
  rw [if_neg (show ¬ (¬ jsStartsWith canonical (name ++ ",") = true) by simp [hsw])]
  simp only [h1, h2]

/-! ### Claim C7: three-segment canonicals and the Paris pipeline -/

/-- Claim C7: for every well-formed three-segment canonical
name,region,country with comma-free segments, decompose returns that
region and country; and the end-to-end pipeline maps the quoted Paris
line (below a header line) to exactly the expected entity, whose id is
the parsed integer 1006004 and whose country code is lower-cased. -/
theorem parseCanonical_three_segments_and_paris :
    (∀ name b c : String, ',' ∉ name.data → ',' ∉ b.data → ',' ∉ c.data →
      parseCanonical name (name ++ "," ++ b ++ "," ++ c) =
        some { region := some b, country := c }) ∧
    getLocationEntities
        "Criteria ID,Name,Canonical Name,Parent ID,Country Code,Target Type,Status\n\"1006004\",\"Paris\",\"Paris,Texas,United States\",\"21176\",\"US\",\"City\",\"Active\"" =
      .ok [{
        id := some 1006004
        name := "Paris"
        canonical := "Paris,Texas,United States"
        region := some "Texas"
        country := "United States"
        countryCode := "us"
        type := "City" }] := by
  constructor
  · intro name b c _ hb hc
    exact parseCanonical_three_segments name b c hb hc
  · rfl

/-- Claim C7, witness for the universally quantified part at the Paris
segments. -/
theorem parseCanonical_three_segments_witness :
    parseCanonical "Paris" ("Paris" ++ "," ++ "Texas" ++ "," ++ "United States") =
      some { region := some "Texas", country := "United States" } :=
  parseCanonical_three_segments_and_paris.1 "Paris" "Texas" "United States"
    (by decide) (by decide) (by decide)

/-! ### Claim C10: the exactly-two-comma recovery path -/

/-- Claim C10: when the canonical a,b,c has exactly two commas, does not
equal the name, and does not start with the name-comma, decompose never
returns none: the name is re-derived as the first segment a, and the
result is region b (the text strictly between the first and last comma)
and country c (the text after the last comma), independently of the
original name argument. -/
theorem parseCanonical_two_comma_recovery (name a b c : String)
    (ha : ',' ∉ a.data) (hb : ',' ∉ b.data) (hc : ',' ∉ c.data)
    (hne : name ≠ a ++ "," ++ b ++ "," ++ c)
    (hsw : jsStartsWith (a ++ "," ++ b ++ "," ++ c) (name ++ ",") = false) :
    parseCanonical name (a ++ "," ++ b ++ "," ++ c) =
      some { region := some b, country := c } := by
  set canonical := a ++ "," ++ b ++ "," ++ c with hcanon
  have hdata : canonical.data = a.data ++ ',' :: (b.data ++ ',' :: c.data) := by
    simp [hcanon, string_data_append]
  have hcount : countChar canonical ',' = 2 := by
    unfold countChar
    rw [hdata]
    simp [List.count_append, List.count_cons, List.count_eq_zero.mpr ha,
      List.count_eq_zero.mpr hb, List.count_eq_zero.mpr hc]
  have hidx : jsIndexOf canonical ',' = (a.data.length : Int) := by
    unfold jsIndexOf
    rw [hdata, idxOfChar_append_self _ ha]
  have htake : jsTakeStr canonical (jsIndexOf canonical ',').toNat = a := by
    rw [hidx, Int.toNat_natCast]
    show String.mk (canonical.data.take a.data.length) = a
    rw [hdata]
    rw [show (a.data ++ ',' :: (b.data ++ ',' :: c.data)).take a.data.length = a.data from by simp]
  have hstate : (jsDropStr canonical (a.length + 1)).data = b.data ++ ',' :: c.data := by
    show canonical.data.drop (a.length + 1) = _
    rw [hdata, string_length_eq]
    rw [show a.data ++ ',' :: (b.data ++ ',' :: c.data) =
      (a.data ++ [',']) ++ (b.data ++ ',' :: c.data) from by simp]
    rw [show a.data.length + 1 = (a.data ++ [',']).length from by simp]
    exact drop_length_append _ _
  obtain ⟨h1, h2⟩ := lastComma_decomp b c _ hc hstate
  unfold parseCanonical
  rw [if_neg hne]
  rw [if_pos (show ¬ jsStartsWith canonical (name ++ ",") = true by simp [hsw])]
  rw [if_pos hcount, htake]
  simp only [h1, h2]

/-- Claim C10, witness: the name Foo differs from the canonical A,B,C
and is not its first segment, yet decompose succeeds with region B and
country C. -/
theorem parseCanonical_two_comma_recovery_witness :
    parseCanonical "Foo" ("A" ++ "," ++ "B" ++ "," ++ "C") =
      some { region := some "B", country := "C" } :=
  parseCanonical_two_comma_recovery "Foo" "A" "B" "C"
    (by decide) (by decide) (by decide) (by decide) (by decide)

/-! ### Claim C8: tokenize round-trip -/

theorem hasQuoteComma_tail {a : Char} {l : List Char}
    (h : hasQuoteComma (a :: l) = false) : hasQuoteComma l = false := by
  cases l with
  | nil => rfl
  | cons b rest =>
    simp only [hasQuoteComma, Bool.or_eq_false_iff] at h
    exact h.2

/-- Processing a quoted field body: inside quoted mode, a field with no
quote-comma pattern is accumulated verbatim up to its closing quote,
which (being followed by a comma or the end of the line) emits the
accumulated value and leaves quoted mode. -/
theorem tokenizeAux_quoted_field (f : List Char) :
    ∀ (cur rest : List Char), hasQuoteComma f = false → nextIsCommaOrEnd rest = true →
      tokenizeAux true cur (f ++ '"' :: rest) =
        String.mk (cur ++ f) :: tokenizeAux false [] rest := by
  induction f with
  | nil =>
    intro cur rest _ hr
    simp [tokenizeAux, hr]
  | cons c f' ih =>
    intro cur rest hf hr
    have hcond : (c == '"' && nextIsCommaOrEnd (f' ++ '"' :: rest)) = false := by
      cases hc : (c == '"') with
      | false => simp [hc]
      | true =>
        cases f' with
        | nil => simp [nextIsCommaOrEnd]
        | cons d f'' =>
          have hd : (d == ',') = false := by
            simp only [hasQuoteComma, Bool.or_eq_false_iff] at hf
            have h1 := hf.1
            rw [hc] at h1
            simpa using h1
          simp [nextIsCommaOrEnd, hd]
    show tokenizeAux true cur (c :: (f' ++ '"' :: rest)) = _
    rw [tokenizeAux]
    rw [if_neg (by simp [hcond])]
    rw [ih (cur ++ [c]) rest (hasQuoteComma_tail hf) hr]
    simp

/-- Claim C8: quoting each field and joining with commas round-trips
through the tokenizer, for every list of fields none of which contains
a double quote at a field boundary, that is a double quote immediately
followed by a comma (the only position at which the tokenizer would
close the field early); embedded commas and double quotes elsewhere in
a field are allowed. -/
theorem parseLine_quoteJoin (fields : List String)
    (h : ∀ f ∈ fields, hasQuoteComma f.data = false) :
    parseLine (quoteJoin fields) = fields := by
  induction fields with
  | nil => rfl
  | cons f fs ih =>
    cases fs with
    | nil =>
      have hf : hasQuoteComma f.data = false := h f (by simp)
      show tokenizeAux false [] (quoteJoin [f]).data = [f]
      have hdata : (quoteJoin [f]).data = '"' :: (f.data ++ '"' :: []) := by
        simp [quoteJoin, string_data_append]
      rw [hdata]
      rw [show tokenizeAux false [] ('"' :: (f.data ++ '"' :: [])) =
        tokenizeAux true [] (f.data ++ '"' :: []) from by simp [tokenizeAux]]
      rw [tokenizeAux_quoted_field f.data [] [] hf (by rfl)]
      simp [tokenizeAux]
    | cons g gs =>
      have hf : hasQuoteComma f.data = false := h f (by simp)
      have hrest : ∀ x ∈ g :: gs, hasQuoteComma x.data = false := by
        intro x hx
        exact h x (by simp [hx])
      have hdata : (quoteJoin (f :: g :: gs)).data =
          '"' :: (f.data ++ '"' :: ',' :: (quoteJoin (g :: gs)).data) := by
        simp [quoteJoin, string_data_append]
      show tokenizeAux false [] (quoteJoin (f :: g :: gs)).data = f :: g :: gs
      rw [hdata]
      rw [show tokenizeAux false [] ('"' :: (f.data ++ '"' :: ',' :: (quoteJoin (g :: gs)).data)) =
        tokenizeAux true [] (f.data ++ '"' :: ',' :: (quoteJoin (g :: gs)).data) from by
          simp [tokenizeAux]]
      rw [tokenizeAux_quoted_field f.data [] (',' :: (quoteJoin (g :: gs)).data) hf (by rfl)]
      rw [show tokenizeAux false [] (',' :: (quoteJoin (g :: gs)).data) =
        tokenizeAux false [] (quoteJoin (g :: gs)).data from by simp [tokenizeAux]]
      rw [show tokenizeAux false [] (quoteJoin (g :: gs)).data =
        parseLine (quoteJoin (g :: gs)) from rfl]
      rw [ih hrest]
      simp

/-- Claim C8, witness: two fields, one with an embedded comma and one
with an internal double quote, round-trip through the tokenizer. -/
theorem parseLine_quoteJoin_witness :
    parseLine (quoteJoin ["Paris,Texas", "a\"b"]) = ["Paris,Texas", "a\"b"] :=
  parseLine_quoteJoin _ (by decide)

/-! ### Claim C9: the output is the in-order filtration of the lines -/

theorem mapLines_ok_filterMap (f : Nat × String → Except String (Option LocationEntity)) :
    ∀ (ps : List (Nat × String)) (res : List (Option LocationEntity)),
      mapLines f ps = .ok res →
      res.filterMap id = ps.filterMap (fun p => exOk (f p)) := by
  intro ps
  induction ps with
  | nil =>
    intro res h
    simp only [mapLines] at h
    cases h
    rfl
  | cons p rest ih =>
    intro res h
    simp only [mapLines] at h
    cases hv : f p with
    | error e =>
      rw [hv] at h
      cases h
    | ok v =>
      rw [hv] at h
      cases hm : mapLines f rest with
      | error e =>
        rw [hm] at h
        cases h
      | ok vs =>
        rw [hm] at h
        cases h
        cases v with
        | none => simpa [List.filterMap_cons, exOk, hv] using ih vs hm
        | some e => simp [List.filterMap_cons, exOk, hv, ih vs hm]

/-- Claim C9: whenever getLocationEntities succeeds, its output is
exactly the in-order filtration of the post-header lines: each retained
line contributes exactly one entity at its position, and no entity is
reordered, duplicated or merged.  In particular the output is an
order-preserving subsequence of the per-line assembly results. -/
theorem getLocationEntities_order (content : String) (out : List LocationEntity)
    (h : getLocationEntities content = .ok out) :
    out = ((splitLines (preprocess content)).enum).filterMap
      (fun p => exOk (assembleLine p.2 p.1)) := by
  simp only [getLocationEntities] at h
  cases hm : mapLines (fun p => assembleLine p.2 p.1) (splitLines (preprocess content)).enum with
  | error e =>
    rw [hm] at h
    cases h
  | ok entities =>
    rw [hm] at h
    injection h with h2
    rw [← h2]
    exact mapLines_ok_filterMap _ _ _ hm

/-- Claim C9, witness: a batch with a header, the Paris line and a
skipped Territory line produces exactly the Paris entity, in order. -/
theorem getLocationEntities_order_witness :
    [({
      id := some 1006004
      name := "Paris"
      canonical := "Paris,Texas,United States"
      region := some "Texas"
      country := "United States"
      countryCode := "us"
      type := "City" } : LocationEntity)] =
      ((splitLines (preprocess
        "Criteria ID,Name,Canonical Name,Parent ID,Country Code,Target Type,Status\n\"1006004\",\"Paris\",\"Paris,Texas,United States\",\"21176\",\"US\",\"City\",\"Active\"\n\"123\",\"Guam\",\"Guam\",\"\",\"GU\",\"Territory\",\"Active\"")).enum).filterMap
        (fun p => exOk (assembleLine p.2 p.1)) :=
  getLocationEntities_order _ _ (by rfl)

/-! ### Claim C4: lines with fewer than six fields abort the batch -/

theorem assembleLine_short (line : String) (index : Nat)
    (h : (parseLine line).length < 6) :
    assembleLine line index =
      .error ("Parsing failed on line #" ++ toString (index + 2) ++ " (not enough values)") := by
  unfold assembleLine
  rw [if_pos h]

theorem assembleLine_not_short (line : String) (index : Nat)
    (h : ¬ (parseLine line).length < 6) :
    ∃ v, assembleLine line index = .ok v := by
  unfold assembleLine
  rw [if_neg h]
  by_cases ht : consideredTypes.contains ((parseLine line).getD 5 "") = false
  · rw [if_pos ht]
    exact ⟨none, rfl⟩
  · rw [if_neg ht]
    cases parseCanonical ((parseLine line).getD 1 "") ((parseLine line).getD 2 "") with
    | none => exact ⟨none, rfl⟩
    | some c => exact ⟨_, rfl⟩

theorem fst_le_of_mem_enumFrom :
    ∀ {n i : Nat} {x : String} {ls : List String}, (i, x) ∈ List.enumFrom n ls → n ≤ i := by
  intro n i x ls
  induction ls generalizing n with
  | nil => intro h; simp [List.enumFrom] at h
  | cons l ls ih =>
    intro h
    rcases (by simpa [List.enumFrom] using h :
        (i = n ∧ x = l) ∨ (i, x) ∈ List.enumFrom (n + 1) ls) with ⟨h1, _⟩ | h2
    · omega
    · have := ih h2
      omega

/-- The batch traversal fails with the message of the first short line:
if a short line exists at index i and every earlier line is not short,
the traversal starting at any index n yields exactly the error message
for line i. -/
theorem mapLines_first_short (ls : List String) :
    ∀ (n i : Nat) (line : String),
      (i, line) ∈ List.enumFrom n ls →
      (parseLine line).length < 6 →
      (∀ p ∈ List.enumFrom n ls, p.1 < i → ¬ (parseLine p.2).length < 6) →
      mapLines (fun p => assembleLine p.2 p.1) (List.enumFrom n ls) =
        .error ("Parsing failed on line #" ++ toString (i + 2) ++ " (not enough values)") := by
  induction ls with
  | nil =>
    intro n i line hmem
    simp [List.enumFrom] at hmem
  | cons l ls ih =>
    intro n i line hmem hshort hmin
    by_cases hhead : (parseLine l).length < 6
    · have hi : i = n := by
        by_contra hne
        have hni : n ≤ i := fst_le_of_mem_enumFrom hmem
        have hlt : n < i := lt_of_le_of_ne hni (Ne.symm hne)
        exact hmin (n, l) (by simp [List.enumFrom]) hlt hhead
      subst hi
      show mapLines _ ((i, l) :: List.enumFrom (i + 1) ls) = _
      simp only [mapLines]
      rw [assembleLine_short l i hhead]
    · have hmem2 : (i, line) ∈ List.enumFrom (n + 1) ls := by
        rcases (by simpa [List.enumFrom] using hmem :
            (i = n ∧ line = l) ∨ (i, line) ∈ List.enumFrom (n + 1) ls) with ⟨h1, h2⟩ | h2
        · subst h1
          subst h2
          exact absurd hshort hhead
        · exact h2
      obtain ⟨v, hv⟩ := assembleLine_not_short l n hhead
      have hrec := ih (n + 1) i line hmem2 hshort
        (fun p hp hlt => hmin p (by simp [List.enumFrom, hp]) hlt)
      show mapLines _ ((n, l) :: List.enumFrom (n + 1) ls) = _
      simp only [mapLines, hv, hrec]

/-- The presence of any short line anywhere in the traversal makes the
whole traversal abort with some error. -/
theorem mapLines_short_aborts (ls : List String) :
    ∀ (n i : Nat) (line : String),
      (i, line) ∈ List.enumFrom n ls →
      (parseLine line).length < 6 →
      ∃ e, mapLines (fun p => assembleLine p.2 p.1) (List.enumFrom n ls) = .error e := by
  induction ls with
  | nil =>
    intro n i line hmem
    simp [List.enumFrom] at hmem
  | cons l ls ih =>
    intro n i line hmem hshort
    by_cases hhead : (parseLine l).length < 6
    · refine ⟨"Parsing failed on line #" ++ toString (n + 2) ++ " (not enough values)", ?_⟩
      show mapLines _ ((n, l) :: List.enumFrom (n + 1) ls) = _
      simp only [mapLines]
      rw [assembleLine_short l n hhead]
    · have hmem2 : (i, line) ∈ List.enumFrom (n + 1) ls := by
        rcases (by simpa [List.enumFrom] using hmem :
            (i = n ∧ line = l) ∨ (i, line) ∈ List.enumFrom (n + 1) ls) with ⟨h1, h2⟩ | h2
        · subst h1
          subst h2
          exact absurd hshort hhead
        · exact h2
      obtain ⟨v, hv⟩ := assembleLine_not_short l n hhead
      obtain ⟨e, he⟩ := ih (n + 1) i line hmem2 hshort
      refine ⟨e, ?_⟩
      show mapLines _ ((n, l) :: List.enumFrom (n + 1) ls) = _
      simp only [mapLines, hv, he]

/-- Claim C4: a line that tokenizes to fewer than six fields makes the
whole batch abort: getLocationEntities returns an error and no entity
list at all (no partial output), and when every earlier line has enough
fields (the line is the first failing one, in particular when it is the
only failing one) the error message is exactly the one referencing that
line number (index + 2, counting the stripped header line and 1-based
numbering). -/
theorem getLocationEntities_short_line_fatal (content : String) (i : Nat) (line : String)
    (hmem : (i, line) ∈ (splitLines (preprocess content)).enum)
    (hshort : (parseLine line).length < 6) :
    (∃ e, getLocationEntities content = .error e) ∧
      ((∀ p ∈ (splitLines (preprocess content)).enum, p.1 < i →
          ¬ (parseLine p.2).length < 6) →
        getLocationEntities content =
          .error ("Parsing failed on line #" ++ toString (i + 2) ++ " (not enough values)")) := by
  constructor
  · obtain ⟨e, he⟩ := mapLines_short_aborts (splitLines (preprocess content)) 0 i line hmem hshort
    rw [show List.enumFrom 0 (splitLines (preprocess content)) =
      (splitLines (preprocess content)).enum from rfl] at he
    refine ⟨e, ?_⟩
    simp only [getLocationEntities]
    rw [he]
  · intro hmin
    have h := mapLines_first_short (splitLines (preprocess content)) 0 i line hmem hshort hmin
    rw [show List.enumFrom 0 (splitLines (preprocess content)) =
      (splitLines (preprocess content)).enum from rfl] at h
    simp only [getLocationEntities]
    rw [h]

/-- Claim C4, witness: a line with only four quoted fields below the
header aborts the batch with the message naming line 2. -/
theorem getLocationEntities_short_line_fatal_witness :
    getLocationEntities "Criteria ID,Name,Canonical Name,Parent ID\n\"a\",\"b\",\"c\",\"d\"" =
      .error ("Parsing failed on line #" ++ toString (0 + 2) ++ " (not enough values)") :=
  (getLocationEntities_short_line_fatal _ 0 "\"a\",\"b\",\"c\",\"d\"" (by decide) (by decide)).2
    (by decide)
